import Mathlib

/-!
Shallow embedding of `src/vga_buffer.rs` (a VGA text-mode display driver):
the 16-color palette, the packed attribute byte (`ColorCode`), the 2-byte
screen cell (`ScreenChar`), the 25×80 grid (`Buffer`) and the stateful
`Writer` with its operations `write_byte`, `write_string`, `new_line` and
`clear_row`.

The grid is modelled as a list of rows of cells.  the Rust panicking index
operator `chars[row][col]` is embedded as `Option`-returning reads and
writes, so that the out-of-bounds branch is visible as `none`; every loop
of the source is embedded as structural recursion over the explicit list
of indices it visits, in the same order.
-/

set_option maxHeartbeats 1000000

namespace VGA

/-- Grid height, `BUFFER_HEIGHT` in the source. -/
def BUFFER_HEIGHT : Nat := 25

/-- Grid width, `BUFFER_WIDTH` in the source. -/
def BUFFER_WIDTH : Nat := 80

/-- The 16 VGA colors; `#[repr(u8)] pub enum Color` in the source. -/
inductive Color where
  | Black
  | Blue
  | Green
  | Cyan
  | Red
  | Magenta
  | Brown
  | LightGray
  | DarkGray
  | LightBlue
  | LightGreen
  | LightCyan
  | LightRed
  | Pink
  | Yellow
  | White
deriving DecidableEq, Repr, Fintype

/-- The explicit `repr(u8)` discriminant of each `Color` variant. -/
def Color.toU8 : Color → Nat
  | .Black => 0
  | .Blue => 1
  | .Green => 2
  | .Cyan => 3
  | .Red => 4
  | .Magenta => 5
  | .Brown => 6
  | .LightGray => 7
  | .DarkGray => 8
  | .LightBlue => 9
  | .LightGreen => 10
  | .LightCyan => 11
  | .LightRed => 12
  | .Pink => 13
  | .Yellow => 14
  | .White => 15

/-- `struct ColorCode(u8)`: one packed attribute byte. -/
structure ColorCode where
  val : Nat
deriving DecidableEq, Repr

/-- `ColorCode::new`: `(background as u8) << 4 | (foreground as u8)`,
computed in `u8` (hence the `% 256` after the shift). -/
def ColorCode.new (foreground background : Color) : ColorCode :=
  ⟨((background.toU8 <<< 4) % 256) ||| foreground.toU8⟩

/-- `struct ScreenChar`: one display cell, a character byte plus a color code. -/
structure ScreenChar where
  ascii_character : Nat
  color_code : ColorCode
deriving DecidableEq, Repr

/-- `struct Buffer`: the 25×80 grid of volatile screen cells, as a list of rows. -/
structure Buffer where
  chars : List (List ScreenChar)
deriving DecidableEq, Repr

/-- A volatile read `self.buffer.chars[row][col].read()`; `none` is the Rust
out-of-bounds panic. -/
def Buffer.read (b : Buffer) (row col : Nat) : Option ScreenChar :=
  match b.chars[row]? with
  | none => none
  | some r => r[col]?

/-- A volatile write `self.buffer.chars[row][col].write(c)`; `none` is the Rust
out-of-bounds panic. -/
def Buffer.write (b : Buffer) (row col : Nat) (c : ScreenChar) : Option Buffer :=
  match b.chars[row]? with
  | none => none
  | some r => if col < r.length then some ⟨b.chars.set row (r.set col c)⟩ else none

/-- Well-formedness of the grid: exactly 25 rows of 80 cells, as the Rust
array type `[[Volatile<ScreenChar>; BUFFER_WIDTH]; BUFFER_HEIGHT]` guarantees. -/
def Buffer.WF (b : Buffer) : Prop :=
  b.chars.length = BUFFER_HEIGHT ∧ ∀ r ∈ b.chars, r.length = BUFFER_WIDTH

instance (b : Buffer) : Decidable b.WF := by
  unfold Buffer.WF; infer_instance

/-- `pub struct Writer`: current column, fixed color code, and the grid. -/
structure Writer where
  column_position : Nat
  color_code : ColorCode
  buffer : Buffer
deriving DecidableEq, Repr

/-- The column loop of `clear_row`: write cell `c` at `(row, col)` for each
listed column, in order. -/
def writeCols (b : Buffer) (row : Nat) (c : ScreenChar) : List Nat → Option Buffer
  | [] => some b
  | col :: rest =>
    match b.write row col c with
    | none => none
    | some b1 => writeCols b1 row c rest

/-- `Writer::clear_row`: write a blank cell (space, current color code) into
every column `0..BUFFER_WIDTH` of the given row. -/
def Writer.clear_row (w : Writer) (row : Nat) : Option Writer :=
  let blank : ScreenChar := { ascii_character := 0x20, color_code := w.color_code }
  match writeCols w.buffer row blank (List.range BUFFER_WIDTH) with
  | none => none
  | some b => some { w with buffer := b }

/-- The column loop of the shift in `new_line`: for each listed column, read
`(row, col)` and write the cell to `(row - 1, col)`. -/
def copyCols (b : Buffer) (row : Nat) : List Nat → Option Buffer
  | [] => some b
  | col :: rest =>
    match b.read row col with
    | none => none
    | some character =>
      match b.write (row - 1) col character with
      | none => none
      | some b1 => copyCols b1 row rest

/-- The row loop of `new_line`: shift each listed row up by one, in order. -/
def scrollRows (b : Buffer) : List Nat → Option Buffer
  | [] => some b
  | row :: rest =>
    match copyCols b row (List.range BUFFER_WIDTH) with
    | none => none
    | some b1 => scrollRows b1 rest

/-- `Writer::new_line`: shift rows `1..BUFFER_HEIGHT` up by one, clear the
bottom row, and reset the column to 0. -/
def Writer.new_line (w : Writer) : Option Writer :=
  match scrollRows w.buffer (List.range' 1 (BUFFER_HEIGHT - 1)) with
  | none => none
  | some b =>
    match Writer.clear_row { w with buffer := b } (BUFFER_HEIGHT - 1) with
    | none => none
    | some w1 => some { w1 with column_position := 0 }

/-- `Writer::write_byte`: newline triggers `new_line`; otherwise wrap if the
row is full, then write the cell at `(BUFFER_HEIGHT - 1, column_position)`
and advance the column. -/
def Writer.write_byte (w : Writer) (byte : Nat) : Option Writer :=
  if byte = 0x0a then
    w.new_line
  else
    match (if w.column_position ≥ BUFFER_WIDTH then w.new_line else some w) with
    | none => none
    | some w1 =>
      let row := BUFFER_HEIGHT - 1
      let col := w1.column_position
      let color_code := w1.color_code
      match w1.buffer.write row col { ascii_character := byte, color_code := color_code } with
      | none => none
      | some b => some { w1 with buffer := b, column_position := w1.column_position + 1 }

/-- `Writer::write_string`: per byte, forward printable ASCII (`0x20..=0x7e`)
and newline unchanged to `write_byte`, and substitute `0xfe` for anything else. -/
def Writer.write_string (w : Writer) (s : List Nat) : Option Writer :=
  match s with
  | [] => some w
  | byte :: rest =>
    match (if (0x20 ≤ byte ∧ byte ≤ 0x7e) ∨ byte = 0x0a then w.write_byte byte
           else w.write_byte 0xfe) with
    | none => none
    | some w1 => w1.write_string rest

/-- A call into the public `Writer` interface. -/
inductive Op where
  | wbyte (b : Nat)
  | wstr (s : List Nat)
deriving Repr

/-- Apply one public call to the writer. -/
def Writer.runOp (w : Writer) : Op → Option Writer
  | .wbyte b => w.write_byte b
  | .wstr s => w.write_string s

/-- Apply a sequence of public calls to the writer, in order. -/
def Writer.run (w : Writer) : List Op → Option Writer
  | [] => some w
  | op :: rest =>
    match w.runOp op with
    | none => none
    | some w1 => w1.run rest

/-- The lazily initialized global `WRITER`: column 0, green-on-black color
code, grid bound to the hardware region (whose initial contents are not
specified by the code, hence the parameter). -/
def mkWRITER (b : Buffer) : Writer :=
  { column_position := 0
    color_code := ColorCode.new Color.Green Color.Black
    buffer := b }

/-- An all-blank well-formed grid, used for concrete test states. -/
def blankBuffer : Buffer :=
  ⟨List.replicate BUFFER_HEIGHT (List.replicate BUFFER_WIDTH
    { ascii_character := 0x20, color_code := ColorCode.new Color.Green Color.Black })⟩

example : ColorCode.new Color.Green Color.Black = ⟨0x02⟩ := by decide

example : blankBuffer.WF := by decide

example : ∃ w, (mkWRITER blankBuffer).write_byte 65 = some w ∧
    w.column_position = 1 ∧ w.buffer.read 24 0 = some ⟨65, ⟨2⟩⟩ := by decide

/-! Helper lemmas about the grid -/

theorem height_eq : BUFFER_HEIGHT = 25 := rfl

theorem width_eq : BUFFER_WIDTH = 80 := rfl

/-- In a well-formed grid, every row index below the height hits a row of
full width. -/
theorem Buffer.wf_row {b : Buffer} (h : b.WF) {i : Nat} (hi : i < BUFFER_HEIGHT) :
    ∃ r, b.chars[i]? = some r ∧ r.length = BUFFER_WIDTH := by
  have hlen : i < b.chars.length := by rw [h.1]; exact hi
  exact ⟨b.chars[i], List.getElem?_eq_getElem hlen, h.2 _ (List.getElem_mem hlen)⟩

/-- Reads outside the grid of a well-formed buffer return `none`. -/
theorem Buffer.read_oob {b : Buffer} (h : b.WF) {i j : Nat}
    (hij : ¬(i < BUFFER_HEIGHT ∧ j < BUFFER_WIDTH)) : b.read i j = none := by
  unfold Buffer.read
  by_cases hi : i < BUFFER_HEIGHT
  · obtain ⟨r, hr, hrl⟩ := b.wf_row h hi
    have hj : ¬ j < BUFFER_WIDTH := fun hj => hij ⟨hi, hj⟩
    rw [hr]
    show r[j]? = none
    rw [List.getElem?_eq_none]
    omega
  · have : b.chars.length ≤ i := by rw [h.1]; omega
    rw [List.getElem?_eq_none this]

/-- A single in-bounds volatile write succeeds, preserves well-formedness,
and changes exactly the target cell. -/
theorem Buffer.write_spec {b : Buffer} (h : b.WF) {row col : Nat}
    (hrow : row < BUFFER_HEIGHT) (hcol : col < BUFFER_WIDTH) (c : ScreenChar) :
    ∃ b', b.write row col c = some b' ∧ b'.WF ∧
      ∀ i j, b'.read i j = if i = row ∧ j = col then some c else b.read i j := by
  obtain ⟨r, hr, hrl⟩ := b.wf_row h hrow
  have hcl : col < r.length := by rw [hrl]; exact hcol
  have hrowlen : row < b.chars.length := by rw [h.1]; exact hrow
  refine ⟨⟨b.chars.set row (r.set col c)⟩, ?_, ?_, ?_⟩
  · unfold Buffer.write
    rw [hr]
    simp [hcl]
  · constructor
    · simp [h.1]
    · intro r' hr'
      rcases List.mem_or_eq_of_mem_set hr' with hmem | heq
      · exact h.2 _ hmem
      · rw [heq, List.length_set]; exact hrl
  · intro i j
    unfold Buffer.read
    by_cases hi : i = row
    · subst hi
      rw [List.getElem?_set_self hrowlen, hr]
      by_cases hj : j = col
      · subst hj
        simp [List.getElem?_set_self hcl]
      · simp [List.getElem?_set_ne (fun hh => hj hh.symm), hj]
    · rw [List.getElem?_set_ne (fun hh => hi hh.symm)]
      simp [hi]

/-- The `clear_row` column loop over columns `s, s+1, ..., s+n-1` succeeds
and blanks exactly those cells of the target row. -/
theorem writeCols_spec : ∀ (n s : Nat) (b : Buffer) (row : Nat) (c : ScreenChar),
    b.WF → row < BUFFER_HEIGHT → s + n ≤ BUFFER_WIDTH →
    ∃ b', writeCols b row c (List.range' s n) = some b' ∧ b'.WF ∧
      ∀ i j, b'.read i j = if i = row ∧ s ≤ j ∧ j < s + n then some c else b.read i j := by
  intro n
  induction n with
  | zero =>
    intro s b row c hwf hrow _
    refine ⟨b, rfl, hwf, ?_⟩
    intro i j
    rw [if_neg]
    omega
  | succ n ih =>
    intro s b row c hwf hrow hsn
    have hs : s < BUFFER_WIDTH := by omega
    obtain ⟨b1, hb1, hwf1, hread1⟩ := Buffer.write_spec hwf hrow hs c
    obtain ⟨b', hb', hwf', hread'⟩ := ih (s + 1) b1 row c hwf1 hrow (by omega)
    refine ⟨b', ?_, hwf', ?_⟩
    · rw [List.range'_succ]
      unfold writeCols
      rw [hb1]
      exact hb'
    · intro i j
      rw [hread' i j, hread1 i j]
      by_cases hi : i = row
      · subst hi
        by_cases hj1 : s + 1 ≤ j ∧ j < s + 1 + n
        · rw [if_pos ⟨rfl, hj1.1, hj1.2⟩, if_pos ⟨rfl, by omega, by omega⟩]
        · rw [if_neg (fun hh => hj1 ⟨hh.2.1, hh.2.2⟩)]
          by_cases hj2 : j = s
          · rw [if_pos ⟨rfl, hj2⟩, if_pos ⟨rfl, by omega, by omega⟩]
          · rw [if_neg (fun hh => hj2 hh.2), if_neg (by omega)]
      · rw [if_neg (fun hh => hi hh.1), if_neg (fun hh => hi hh.1),
          if_neg (fun hh => hi hh.1)]

/-- `clear_row` on a well-formed grid succeeds, blanks exactly the target
row, and touches neither the column position nor the color code. -/
theorem Writer.clear_row_spec {w : Writer} (h : w.buffer.WF) {row : Nat}
    (hrow : row < BUFFER_HEIGHT) :
    ∃ w', w.clear_row row = some w' ∧ w'.buffer.WF ∧
      w'.column_position = w.column_position ∧ w'.color_code = w.color_code ∧
      ∀ i j, w'.buffer.read i j =
        if i = row ∧ j < BUFFER_WIDTH then some ⟨0x20, w.color_code⟩
        else w.buffer.read i j := by
  obtain ⟨b', hb', hwf', hread'⟩ :=
    writeCols_spec BUFFER_WIDTH 0 w.buffer row ⟨0x20, w.color_code⟩ h hrow (by omega)
  refine ⟨{ w with buffer := b' }, ?_, hwf', rfl, rfl, ?_⟩
  · unfold Writer.clear_row
    rw [List.range_eq_range']
    show (match writeCols w.buffer row ⟨0x20, w.color_code⟩ (List.range' 0 BUFFER_WIDTH) with
      | none => none
      | some b => some { w with buffer := b }) = _
    rw [hb']
  · intro i j
    rw [hread' i j]
    by_cases hij : i = row ∧ j < BUFFER_WIDTH
    · rw [if_pos ⟨hij.1, by omega, by omega⟩, if_pos hij]
    · rw [if_neg (fun hh => hij ⟨hh.1, by omega⟩), if_neg hij]

/-- The `new_line` column loop over columns `s, ..., s+n-1` succeeds and
copies exactly those cells of row `row` into row `row - 1`. -/
theorem copyCols_spec : ∀ (n s : Nat) (b : Buffer) (row : Nat),
    b.WF → 1 ≤ row → row < BUFFER_HEIGHT → s + n ≤ BUFFER_WIDTH →
    ∃ b', copyCols b row (List.range' s n) = some b' ∧ b'.WF ∧
      ∀ i j, b'.read i j =
        if i = row - 1 ∧ s ≤ j ∧ j < s + n then b.read row j else b.read i j := by
  intro n
  induction n with
  | zero =>
    intro s b row hwf _ _ _
    refine ⟨b, rfl, hwf, ?_⟩
    intro i j
    rw [if_neg]
    omega
  | succ n ih =>
    intro s b row hwf hrow1 hrow hsn
    have hs : s < BUFFER_WIDTH := by omega
    obtain ⟨r, hr, hrl⟩ := b.wf_row hwf hrow
    have hsl : s < r.length := by rw [hrl]; exact hs
    have hread0 : b.read row s = some r[s] := by
      unfold Buffer.read
      rw [hr]
      exact List.getElem?_eq_getElem hsl
    obtain ⟨b1, hb1, hwf1, hread1⟩ :=
      Buffer.write_spec hwf (by omega : row - 1 < BUFFER_HEIGHT) hs r[s]
    obtain ⟨b', hb', hwf', hread'⟩ := ih (s + 1) b1 row hwf1 hrow1 hrow (by omega)
    have hb1row : ∀ j, b1.read row j = b.read row j := by
      intro j
      rw [hread1]
      rw [if_neg]
      omega
    refine ⟨b', ?_, hwf', ?_⟩
    · rw [List.range'_succ]
      unfold copyCols
      rw [hread0]
      show (match b.write (row - 1) s r[s] with
        | none => none
        | some b1 => copyCols b1 row (List.range' (s + 1) n)) = some b'
      rw [hb1]
      exact hb'
    · intro i j
      rw [hread' i j]
      by_cases hi : i = row - 1
      · subst hi
        by_cases hj1 : s + 1 ≤ j ∧ j < s + 1 + n
        · rw [if_pos ⟨rfl, hj1.1, hj1.2⟩, hb1row, if_pos ⟨rfl, by omega, by omega⟩]
        · rw [if_neg (fun hh => hj1 ⟨hh.2.1, hh.2.2⟩), hread1]
          by_cases hj2 : j = s
          · subst hj2
            rw [if_pos ⟨rfl, rfl⟩, if_pos ⟨rfl, by omega, by omega⟩, hread0]
          · rw [if_neg (fun hh => hj2 hh.2), if_neg (by omega)]
      · rw [if_neg (fun hh => hi hh.1), hread1, if_neg (fun hh => hi hh.1),
          if_neg (fun hh => hi hh.1)]

/-- The `new_line` row loop over rows `s, ..., s+n-1` (each copied one row
up) succeeds and shifts exactly those rows. -/
theorem scrollRows_spec : ∀ (n s : Nat) (b : Buffer),
    b.WF → 1 ≤ s → s + n ≤ BUFFER_HEIGHT →
    ∃ b', scrollRows b (List.range' s n) = some b' ∧ b'.WF ∧
      ∀ i j, b'.read i j =
        if s - 1 ≤ i ∧ i < s - 1 + n ∧ j < BUFFER_WIDTH then b.read (i + 1) j
        else b.read i j := by
  intro n
  induction n with
  | zero =>
    intro s b hwf _ _
    refine ⟨b, rfl, hwf, ?_⟩
    intro i j
    rw [if_neg]
    omega
  | succ n ih =>
    intro s b hwf hs1 hsn
    obtain ⟨b1, hb1, hwf1, hread1⟩ :=
      copyCols_spec BUFFER_WIDTH 0 b s hwf hs1 (by omega) (by omega)
    obtain ⟨b', hb', hwf', hread'⟩ := ih (s + 1) b1 hwf1 (by omega) (by omega)
    refine ⟨b', ?_, hwf', ?_⟩
    · rw [List.range'_succ]
      unfold scrollRows
      rw [List.range_eq_range', hb1]
      exact hb'
    · intro i j
      rw [hread' i j]
      by_cases hj : j < BUFFER_WIDTH
      · by_cases hi1 : s ≤ i ∧ i < s + n
        · rw [if_pos ⟨by omega, by omega, hj⟩, hread1, if_neg (by omega),
            if_pos ⟨by omega, by omega, hj⟩]
        · rw [if_neg (by omega), hread1]
          by_cases hi2 : i = s - 1
          · subst hi2
            rw [if_pos ⟨rfl, by omega, hj⟩, if_pos ⟨by omega, by omega, hj⟩]
            congr 1
            omega
          · rw [if_neg (fun hh => hi2 hh.1), if_neg (by omega)]
      · rw [if_neg (by omega), hread1, if_neg (by omega), if_neg (by omega)]

/-- `new_line` on a well-formed grid succeeds: every row moves up by one,
the bottom row becomes blank, the column resets to 0, and the color code is
unchanged. -/
theorem Writer.new_line_spec {w : Writer} (h : w.buffer.WF) :
    ∃ w', w.new_line = some w' ∧ w'.buffer.WF ∧
      w'.column_position = 0 ∧ w'.color_code = w.color_code ∧
      ∀ i j, w'.buffer.read i j =
        if i = BUFFER_HEIGHT - 1 ∧ j < BUFFER_WIDTH then some ⟨0x20, w.color_code⟩
        else if i + 1 < BUFFER_HEIGHT ∧ j < BUFFER_WIDTH then w.buffer.read (i + 1) j
        else w.buffer.read i j := by
  obtain ⟨b1, hb1, hwf1, hread1⟩ :=
    scrollRows_spec (BUFFER_HEIGHT - 1) 1 w.buffer h (by omega) (by decide)
  obtain ⟨w2, hw2, hwf2, hcol2, hcc2, hread2⟩ :=
    @Writer.clear_row_spec { w with buffer := b1 } hwf1 (BUFFER_HEIGHT - 1)
      (by decide)
  refine ⟨{ w2 with column_position := 0 }, ?_, hwf2, rfl, hcc2, ?_⟩
  · unfold Writer.new_line
    rw [hb1]
    show (match ({ w with buffer := b1 } : Writer).clear_row (BUFFER_HEIGHT - 1) with
      | none => none
      | some w1 => some { w1 with column_position := 0 }) = _
    rw [hw2]
  · intro i j
    have : ({ w2 with column_position := 0 } : Writer).buffer = w2.buffer := rfl
    rw [this, hread2 i j]
    show _ = if i = BUFFER_HEIGHT - 1 ∧ j < BUFFER_WIDTH
        then some (⟨0x20, w.color_code⟩ : ScreenChar)
        else _
    by_cases hij : i = BUFFER_HEIGHT - 1 ∧ j < BUFFER_WIDTH
    · rw [if_pos hij, if_pos hij]
    · rw [if_neg hij, if_neg hij, hread1 i j]
      by_cases hsh : i + 1 < BUFFER_HEIGHT ∧ j < BUFFER_WIDTH
      · rw [if_pos ⟨by omega, by omega, hsh.2⟩, if_pos hsh]
      · rw [if_neg (by omega), if_neg hsh]

/-- On a newline byte, `write_byte` is exactly `new_line`. -/
theorem Writer.write_byte_newline (w : Writer) : w.write_byte 0x0a = w.new_line := by
  unfold Writer.write_byte
  rw [if_pos rfl]

/-- `write_byte` of a non-newline byte while the row is not yet full: the
cell goes to `(BUFFER_HEIGHT - 1, column_position)`, the column advances by
one, and nothing else changes. -/
theorem Writer.write_byte_spec_no_wrap {w : Writer} (h : w.buffer.WF) {b : Nat}
    (hb : b ≠ 0x0a) (hcol : w.column_position < BUFFER_WIDTH) :
    ∃ w', w.write_byte b = some w' ∧ w'.buffer.WF ∧
      w'.column_position = w.column_position + 1 ∧ w'.color_code = w.color_code ∧
      ∀ i j, w'.buffer.read i j =
        if i = BUFFER_HEIGHT - 1 ∧ j = w.column_position
        then some ⟨b, w.color_code⟩ else w.buffer.read i j := by
  obtain ⟨b', hb', hwf', hread'⟩ :=
    Buffer.write_spec h (by decide : BUFFER_HEIGHT - 1 < BUFFER_HEIGHT) hcol
      ⟨b, w.color_code⟩
  refine ⟨{ w with buffer := b', column_position := w.column_position + 1 }, ?_,
    hwf', rfl, rfl, hread'⟩
  unfold Writer.write_byte
  rw [if_neg hb, if_neg (by omega : ¬ w.column_position ≥ BUFFER_WIDTH)]
  show (match w.buffer.write (BUFFER_HEIGHT - 1) w.column_position ⟨b, w.color_code⟩ with
    | none => none
    | some bb => some { w with buffer := bb, column_position := w.column_position + 1 }) = _
  rw [hb']

/-- `write_byte` of a non-newline byte while the row is full: `new_line`
runs first (shifting every row up and blanking the bottom row), then the
byte lands at column 0 of the bottom row and the column becomes 1. -/
theorem Writer.write_byte_spec_wrap {w : Writer} (h : w.buffer.WF) {b : Nat}
    (hb : b ≠ 0x0a) (hcol : BUFFER_WIDTH ≤ w.column_position) :
    ∃ w', w.write_byte b = some w' ∧ w'.buffer.WF ∧
      w'.column_position = 1 ∧ w'.color_code = w.color_code ∧
      ∀ i j, w'.buffer.read i j =
        if i = BUFFER_HEIGHT - 1 ∧ j = 0 then some ⟨b, w.color_code⟩
        else if i = BUFFER_HEIGHT - 1 ∧ j < BUFFER_WIDTH then some ⟨0x20, w.color_code⟩
        else if i + 1 < BUFFER_HEIGHT ∧ j < BUFFER_WIDTH then w.buffer.read (i + 1) j
        else w.buffer.read i j := by
  obtain ⟨w1, hw1, hwf1, hcol1, hcc1, hread1⟩ := Writer.new_line_spec h
  obtain ⟨b', hb', hwf', hread'⟩ :=
    Buffer.write_spec hwf1 (by decide : BUFFER_HEIGHT - 1 < BUFFER_HEIGHT)
      (by decide : (0 : Nat) < BUFFER_WIDTH) ⟨b, w1.color_code⟩
  refine ⟨{ w1 with buffer := b', column_position := w1.column_position + 1 }, ?_,
    hwf', by show w1.column_position + 1 = 1; omega, hcc1, ?_⟩
  · unfold Writer.write_byte
    rw [if_neg hb, if_pos hcol, hw1]
    show (match w1.buffer.write (BUFFER_HEIGHT - 1) w1.column_position
        ⟨b, w1.color_code⟩ with
      | none => none
      | some bb => some { w1 with buffer := bb, column_position := w1.column_position + 1 }) = _
    rw [hcol1, hb']
  · intro i j
    show b'.read i j = _
    rw [hread' i j]
    by_cases h0 : i = BUFFER_HEIGHT - 1 ∧ j = 0
    · rw [if_pos h0, if_pos h0, hcc1]
    · rw [if_neg h0, if_neg h0]
      exact hread1 i j

/-- `write_byte` is total on well-formed grids, preserves well-formedness
and the color code, and leaves the column at most the width. -/
theorem Writer.write_byte_total {w : Writer} (h : w.buffer.WF) (b : Nat) :
    ∃ w', w.write_byte b = some w' ∧ w'.buffer.WF ∧
      w'.color_code = w.color_code ∧ w'.column_position ≤ BUFFER_WIDTH := by
  by_cases hb : b = 0x0a
  · subst hb
    obtain ⟨w', hw', hwf', hcol', hcc', _⟩ := Writer.new_line_spec h
    exact ⟨w', (w.write_byte_newline).trans hw', hwf', hcc', by omega⟩
  · by_cases hcol : w.column_position < BUFFER_WIDTH
    · obtain ⟨w', hw', hwf', hcol', hcc', _⟩ := Writer.write_byte_spec_no_wrap h hb hcol
      exact ⟨w', hw', hwf', hcc', by omega⟩
    · obtain ⟨w', hw', hwf', hcol', hcc', _⟩ :=
        Writer.write_byte_spec_wrap h hb (by omega)
      exact ⟨w', hw', hwf', hcc', by rw [hcol']; decide⟩

/-- One step of `write_string`, as the match in the source: printable ASCII and
newline are forwarded unchanged, anything else becomes `0xfe`. -/
theorem Writer.write_string_cons (w : Writer) (byte : Nat) (rest : List Nat) :
    w.write_string (byte :: rest) =
      (if (0x20 ≤ byte ∧ byte ≤ 0x7e) ∨ byte = 0x0a then w.write_byte byte
       else w.write_byte 0xfe).bind (fun w1 => w1.write_string rest) := by
  show (match (if (0x20 ≤ byte ∧ byte ≤ 0x7e) ∨ byte = 0x0a then w.write_byte byte
      else w.write_byte 0xfe) with
    | none => none
    | some w1 => w1.write_string rest) = _
  rcases hx : (if (0x20 ≤ byte ∧ byte ≤ 0x7e) ∨ byte = 0x0a then w.write_byte byte
    else w.write_byte 0xfe) with _ | w1 <;> rfl

/-- `write_string` is total on well-formed grids, preserves well-formedness
and the color code, and leaves the column at most the width or untouched. -/
theorem Writer.write_string_total : ∀ (s : List Nat) (w : Writer), w.buffer.WF →
    ∃ w', w.write_string s = some w' ∧ w'.buffer.WF ∧ w'.color_code = w.color_code ∧
      (w'.column_position ≤ BUFFER_WIDTH ∨ w'.column_position = w.column_position) := by
  intro s
  induction s with
  | nil => exact fun w h => ⟨w, rfl, h, rfl, Or.inr rfl⟩
  | cons byte rest ih =>
    intro w h
    by_cases hp : (0x20 ≤ byte ∧ byte ≤ 0x7e) ∨ byte = 0x0a
    · obtain ⟨w1, hw1, hwf1, hcc1, hcol1⟩ := Writer.write_byte_total h byte
      obtain ⟨w', hw', hwf', hcc', hcol'⟩ := ih w1 hwf1
      refine ⟨w', ?_, hwf', hcc'.trans hcc1, ?_⟩
      · rw [Writer.write_string_cons, if_pos hp, hw1]
        exact hw'
      · rcases hcol' with hc | hc
        · exact Or.inl hc
        · exact Or.inl (by omega)
    · obtain ⟨w1, hw1, hwf1, hcc1, hcol1⟩ := Writer.write_byte_total h 0xfe
      obtain ⟨w', hw', hwf', hcc', hcol'⟩ := ih w1 hwf1
      refine ⟨w', ?_, hwf', hcc'.trans hcc1, ?_⟩
      · rw [Writer.write_string_cons, if_neg hp, hw1]
        exact hw'
      · rcases hcol' with hc | hc
        · exact Or.inl hc
        · exact Or.inl (by omega)

/-- Two structurally equal field records give equal writers. -/
theorem Writer.ext_fields {a b : Writer} (h1 : a.column_position = b.column_position)
    (h2 : a.color_code = b.color_code) (h3 : a.buffer = b.buffer) : a = b := by
  cases a
  cases b
  cases h1
  cases h2
  cases h3
  rfl

/-- `clear_row` never changes the color code or the column, whatever the
state and row (frame property, no well-formedness needed). -/
theorem Writer.clear_row_frame {w w' : Writer} {row : Nat}
    (h : w.clear_row row = some w') :
    w'.color_code = w.color_code ∧ w'.column_position = w.column_position := by
  have h2 : (match writeCols w.buffer row ⟨0x20, w.color_code⟩ (List.range BUFFER_WIDTH) with
    | none => none
    | some b => some { w with buffer := b } : Option Writer) = some w' := h
  rcases ht : writeCols w.buffer row ⟨0x20, w.color_code⟩ (List.range BUFFER_WIDTH) with _ | bb
  · rw [ht] at h2
    exact absurd h2 (by simp)
  · rw [ht] at h2
    cases Option.some.inj h2
    exact ⟨rfl, rfl⟩

/-- `new_line` never changes the color code, and always resets the column
to 0 (frame property, no well-formedness needed). -/
theorem Writer.new_line_frame {w w' : Writer} (h : w.new_line = some w') :
    w'.color_code = w.color_code ∧ w'.column_position = 0 := by
  have h2 : (match scrollRows w.buffer (List.range' 1 (BUFFER_HEIGHT - 1)) with
    | none => none
    | some b =>
      match ({ w with buffer := b } : Writer).clear_row (BUFFER_HEIGHT - 1) with
      | none => none
      | some w1 => some { w1 with column_position := 0 } : Option Writer) = some w' := h
  rcases ht : scrollRows w.buffer (List.range' 1 (BUFFER_HEIGHT - 1)) with _ | bb
  · rw [ht] at h2
    exact absurd h2 (by simp)
  · rw [ht] at h2
    have h3 : (match ({ w with buffer := bb } : Writer).clear_row (BUFFER_HEIGHT - 1) with
      | none => none
      | some w1 => some { w1 with column_position := 0 } : Option Writer) = some w' := h2
    rcases hc : ({ w with buffer := bb } : Writer).clear_row (BUFFER_HEIGHT - 1) with _ | w1
    · rw [hc] at h3
      exact absurd h3 (by simp)
    · rw [hc] at h3
      cases Option.some.inj h3
      exact ⟨(Writer.clear_row_frame hc).1, rfl⟩

/-- `write_byte` never changes the color code (frame property, no
well-formedness needed). -/
theorem Writer.write_byte_frame {w w' : Writer} {b : Nat}
    (h : w.write_byte b = some w') : w'.color_code = w.color_code := by
  by_cases hb : b = 0x0a
  · subst hb
    rw [Writer.write_byte_newline] at h
    exact (Writer.new_line_frame h).1
  · unfold Writer.write_byte at h
    rw [if_neg hb] at h
    rcases hg : (if w.column_position ≥ BUFFER_WIDTH then w.new_line else some w) with _ | w1
    · rw [hg] at h
      exact absurd h (by simp)
    · rw [hg] at h
      have h2 : (match w1.buffer.write (BUFFER_HEIGHT - 1) w1.column_position
          ⟨b, w1.color_code⟩ with
        | none => none
        | some bb =>
          some { w1 with buffer := bb, column_position := w1.column_position + 1 }
        : Option Writer) = some w' := h
      rcases hw : w1.buffer.write (BUFFER_HEIGHT - 1) w1.column_position
          ⟨b, w1.color_code⟩ with _ | bb
      · rw [hw] at h2
        exact absurd h2 (by simp)
      · rw [hw] at h2
        cases Option.some.inj h2
        show w1.color_code = w.color_code
        by_cases hcol : w.column_position ≥ BUFFER_WIDTH
        · rw [if_pos hcol] at hg
          exact (Writer.new_line_frame hg).1
        · rw [if_neg hcol] at hg
          cases Option.some.inj hg
          rfl

/-- `write_string` never changes the color code (frame property, no
well-formedness needed). -/
theorem Writer.write_string_frame : ∀ (s : List Nat) {w w' : Writer},
    w.write_string s = some w' → w'.color_code = w.color_code := by
  intro s
  induction s with
  | nil =>
    intro w w' h
    have h2 : some w = some w' := h
    cases Option.some.inj h2
    rfl
  | cons byte rest ih =>
    intro w w' h
    rw [Writer.write_string_cons] at h
    rcases hx : (if (0x20 ≤ byte ∧ byte ≤ 0x7e) ∨ byte = 0x0a then w.write_byte byte
      else w.write_byte 0xfe) with _ | w1
    · rw [hx] at h
      exact absurd h (by simp)
    · rw [hx] at h
      have h2 : w1.write_string rest = some w' := h
      have hcc1 : w1.color_code = w.color_code := by
        by_cases hp : (0x20 ≤ byte ∧ byte ≤ 0x7e) ∨ byte = 0x0a
        · rw [if_pos hp] at hx
          exact Writer.write_byte_frame hx
        · rw [if_neg hp] at hx
          exact Writer.write_byte_frame hx
      exact (ih h2).trans hcc1

/-- Any single public call is total on well-formed states and keeps the
grid well-formed, the color fixed, and the column bounded. -/
theorem Writer.runOp_total {w : Writer} (h : w.buffer.WF) (op : Op) :
    ∃ w', w.runOp op = some w' ∧ w'.buffer.WF ∧ w'.color_code = w.color_code ∧
      (w'.column_position ≤ BUFFER_WIDTH ∨ w'.column_position = w.column_position) := by
  cases op with
  | wbyte b =>
    obtain ⟨w', hw', hwf', hcc', hcol'⟩ := Writer.write_byte_total h b
    exact ⟨w', hw', hwf', hcc', Or.inl hcol'⟩
  | wstr s => exact Writer.write_string_total s w h

/-- Any sequence of public calls is total from a well-formed state with a
bounded column, and preserves all three invariants. -/
theorem Writer.run_total : ∀ (ops : List Op) (w : Writer), w.buffer.WF →
    w.column_position ≤ BUFFER_WIDTH →
    ∃ w', w.run ops = some w' ∧ w'.buffer.WF ∧ w'.color_code = w.color_code ∧
      w'.column_position ≤ BUFFER_WIDTH := by
  intro ops
  induction ops with
  | nil => exact fun w h hc => ⟨w, rfl, h, rfl, hc⟩
  | cons op rest ih =>
    intro w h hc
    obtain ⟨w1, hw1, hwf1, hcc1, hcol1⟩ := Writer.runOp_total h op
    have hc1 : w1.column_position ≤ BUFFER_WIDTH := by
      rcases hcol1 with h' | h' <;> omega
    obtain ⟨w', hw', hwf', hcc', hcol'⟩ := ih w1 hwf1 hc1
    refine ⟨w', ?_, hwf', hcc'.trans hcc1, hcol'⟩
    unfold Writer.run
    rw [show w.runOp op = some w1 from hw1]
    exact hw'

/-- `write_string` distributes over list append. -/
theorem Writer.write_string_append : ∀ (s t : List Nat) (w : Writer),
    w.write_string (s ++ t) = (w.write_string s).bind (fun w1 => w1.write_string t) := by
  intro s
  induction s with
  | nil => intro t w; rfl
  | cons byte rest ih =>
    intro t w
    rw [List.cons_append, Writer.write_string_cons, Writer.write_string_cons]
    rcases hx : (if (0x20 ≤ byte ∧ byte ≤ 0x7e) ∨ byte = 0x0a then w.write_byte byte
      else w.write_byte 0xfe) with _ | w1
    · rfl
    · show w1.write_string (rest ++ t) = _
      rw [ih t w1]
      rfl

/-- Two well-formed grids with the same cell reads everywhere are equal. -/
theorem Buffer.eq_of_read {b b' : Buffer} (h : b.WF) (h' : b'.WF)
    (hr : ∀ i j, b.read i j = b'.read i j) : b = b' := by
  obtain ⟨l⟩ := b
  obtain ⟨l'⟩ := b'
  congr 1
  apply List.ext_getElem?
  intro i
  by_cases hi : i < BUFFER_HEIGHT
  · obtain ⟨r, hrow, hrl⟩ := Buffer.wf_row h hi
    obtain ⟨r', hrow', hrl'⟩ := Buffer.wf_row h' hi
    show l[i]? = l'[i]?
    rw [show l[i]? = some r from hrow, show l'[i]? = some r' from hrow']
    congr 1
    apply List.ext_getElem?
    intro j
    have hv := hr i j
    unfold Buffer.read at hv
    rw [show (Buffer.mk l).chars[i]? = some r from hrow,
      show (Buffer.mk l').chars[i]? = some r' from hrow'] at hv
    exact hv
  · show l[i]? = l'[i]?
    rw [List.getElem?_eq_none, List.getElem?_eq_none]
    · have := h'.1
      simp only [Buffer.WF] at this ⊢
      omega
    · have := h.1
      simp only [Buffer.WF] at this ⊢
      omega

/-- Writing a printable sequence that fits in the remaining part of the
current row: each byte lands verbatim in consecutive columns of the bottom
row, the column advances by the length, and nothing else changes. -/
theorem Writer.write_string_printable : ∀ (s : List Nat) (w : Writer), w.buffer.WF →
    (∀ x ∈ s, 0x20 ≤ x ∧ x ≤ 0x7e) → w.column_position + s.length ≤ BUFFER_WIDTH →
    ∃ w', w.write_string s = some w' ∧ w'.buffer.WF ∧ w'.color_code = w.color_code ∧
      w'.column_position = w.column_position + s.length ∧
      ∀ i j, w'.buffer.read i j =
        if i = BUFFER_HEIGHT - 1 ∧ w.column_position ≤ j ∧
            j < w.column_position + s.length
        then some ⟨s.getD (j - w.column_position) 0, w.color_code⟩
        else w.buffer.read i j := by
  intro s
  induction s with
  | nil =>
    intro w h _ _
    refine ⟨w, rfl, h, rfl, by simp, ?_⟩
    intro i j
    rw [if_neg]
    simp only [List.length_nil]
    omega
  | cons byte rest ih =>
    intro w h hall hlen
    obtain ⟨hbp, hrest⟩ := List.forall_mem_cons.mp hall
    have hb10 : byte ≠ 0x0a := by omega
    have hlen' : w.column_position + rest.length + 1 ≤ BUFFER_WIDTH := by
      simp only [List.length_cons] at hlen
      omega
    have hcol : w.column_position < BUFFER_WIDTH := by omega
    obtain ⟨w1, hw1, hwf1, hcol1, hcc1, hread1⟩ :=
      Writer.write_byte_spec_no_wrap h hb10 hcol
    obtain ⟨w', hw', hwf', hcc', hcol', hread'⟩ :=
      ih w1 hwf1 hrest (by rw [hcol1]; omega)
    refine ⟨w', ?_, hwf', hcc'.trans hcc1, ?_, ?_⟩
    · rw [Writer.write_string_cons, if_pos (Or.inl hbp), hw1]
      exact hw'
    · rw [hcol', hcol1]
      simp only [List.length_cons]
      omega
    · intro i j
      rw [hread' i j, hcol1, hcc1]
      simp only [List.length_cons]
      by_cases hi : i = BUFFER_HEIGHT - 1
      · subst hi
        by_cases h1 : w.column_position + 1 ≤ j ∧ j < w.column_position + 1 + rest.length
        · rw [if_pos ⟨rfl, h1.1, h1.2⟩, if_pos ⟨rfl, by omega, by omega⟩]
          have hj : j - w.column_position = (j - (w.column_position + 1)) + 1 := by omega
          rw [hj, List.getD_cons_succ]
        · rw [if_neg (fun hh => h1 ⟨hh.2.1, hh.2.2⟩), hread1]
          by_cases h2 : j = w.column_position
          · rw [if_pos ⟨rfl, h2⟩, if_pos ⟨rfl, by omega, by omega⟩,
              show j - w.column_position = 0 from by omega, List.getD_cons_zero]
          · rw [if_neg (fun hh => h2 hh.2), if_neg (by omega)]
      · rw [if_neg (fun hh => hi hh.1), hread1, if_neg (fun hh => hi hh.1),
          if_neg (fun hh => hi hh.1)]

/-! Claim theorems -/

/-- C1: on the newline byte, `write_byte` performs exactly the
scroll-and-reset operation: it is `new_line`, it copies every row
`1 ≤ r ≤ height-1` into row `r-1` preserving column order, leaves the
bottom row entirely blank (space paired with the current writer attribute),
resets the column to 0, and writes nothing else (all other reads,
including out-of-grid ones, are unchanged and no newline character is
placed in any cell). -/
theorem newline_scrolls_and_resets : ∀ (w : Writer), w.buffer.WF →
    ∃ w', w.write_byte 0x0a = some w' ∧ w.write_byte 0x0a = w.new_line ∧
      w'.column_position = 0 ∧ w'.color_code = w.color_code ∧ w'.buffer.WF ∧
      (∀ r, 1 ≤ r → r < BUFFER_HEIGHT → ∀ c, c < BUFFER_WIDTH →
        w'.buffer.read (r - 1) c = w.buffer.read r c) ∧
      (∀ c, c < BUFFER_WIDTH →
        w'.buffer.read (BUFFER_HEIGHT - 1) c = some ⟨0x20, w.color_code⟩) ∧
      (∀ i j, ¬(i < BUFFER_HEIGHT ∧ j < BUFFER_WIDTH) → w'.buffer.read i j = none) := by
  intro w h
  obtain ⟨w', hw', hwf', hcol', hcc', hread'⟩ := Writer.new_line_spec h
  refine ⟨w', (w.write_byte_newline).trans hw', w.write_byte_newline, hcol', hcc',
    hwf', ?_, ?_, ?_⟩
  · intro r hr1 hr c hc
    rw [hread' (r - 1) c,
      if_neg (by omega : ¬((r : Nat) - 1 = BUFFER_HEIGHT - 1 ∧ c < BUFFER_WIDTH)),
      if_pos ⟨by omega, hc⟩]
    congr 1
    omega
  · intro c hc
    rw [hread' (BUFFER_HEIGHT - 1) c, if_pos ⟨rfl, hc⟩]
  · intro i j hij
    rw [hread' i j,
      if_neg (by have h25 := height_eq; have h80 := width_eq; omega),
      if_neg (by have h25 := height_eq; have h80 := width_eq; omega)]
    exact Buffer.read_oob h hij

/-- C1 witness: the theorem applied to the global writer over a blank grid. -/
theorem newline_scrolls_and_resets_witness :
    ∃ w', (mkWRITER blankBuffer).write_byte 0x0a = some w' ∧
      (mkWRITER blankBuffer).write_byte 0x0a = (mkWRITER blankBuffer).new_line ∧
      w'.column_position = 0 ∧ w'.color_code = (mkWRITER blankBuffer).color_code ∧
      w'.buffer.WF ∧
      (∀ r, 1 ≤ r → r < BUFFER_HEIGHT → ∀ c, c < BUFFER_WIDTH →
        w'.buffer.read (r - 1) c = (mkWRITER blankBuffer).buffer.read r c) ∧
      (∀ c, c < BUFFER_WIDTH →
        w'.buffer.read (BUFFER_HEIGHT - 1) c =
          some ⟨0x20, (mkWRITER blankBuffer).color_code⟩) ∧
      (∀ i j, ¬(i < BUFFER_HEIGHT ∧ j < BUFFER_WIDTH) → w'.buffer.read i j = none) :=
  newline_scrolls_and_resets (mkWRITER blankBuffer) (by decide)

/-- C2: a non-newline byte written while the column is below the width
lands as the cell `{character := byte, attribute := current color}` at
`(height-1, column)`, the column advances by exactly 1, no error occurs,
and no other cell changes — for every byte value, printable or not. -/
theorem write_byte_in_row_spec : ∀ (w : Writer) (b : Nat), w.buffer.WF → b ≠ 0x0a →
    w.column_position < BUFFER_WIDTH →
    ∃ w', w.write_byte b = some w' ∧
      w'.buffer.read (BUFFER_HEIGHT - 1) w.column_position = some ⟨b, w.color_code⟩ ∧
      w'.column_position = w.column_position + 1 ∧ w'.color_code = w.color_code ∧
      ∀ i j, ¬(i = BUFFER_HEIGHT - 1 ∧ j = w.column_position) →
        w'.buffer.read i j = w.buffer.read i j := by
  intro w b h hb hcol
  obtain ⟨w', hw', hwf', hcol', hcc', hread'⟩ := Writer.write_byte_spec_no_wrap h hb hcol
  refine ⟨w', hw', ?_, hcol', hcc', ?_⟩
  · rw [hread' (BUFFER_HEIGHT - 1) w.column_position, if_pos ⟨rfl, rfl⟩]
  · intro i j hij
    rw [hread' i j, if_neg hij]

/-- C2 witness: the non-printable byte 7 (BEL) written at column 0 of the
global writer over a blank grid. -/
theorem write_byte_in_row_spec_witness :
    ∃ w', (mkWRITER blankBuffer).write_byte 7 = some w' ∧
      w'.buffer.read (BUFFER_HEIGHT - 1) (mkWRITER blankBuffer).column_position =
        some ⟨7, (mkWRITER blankBuffer).color_code⟩ ∧
      w'.column_position = (mkWRITER blankBuffer).column_position + 1 ∧
      w'.color_code = (mkWRITER blankBuffer).color_code ∧
      ∀ i j, ¬(i = BUFFER_HEIGHT - 1 ∧ j = (mkWRITER blankBuffer).column_position) →
        w'.buffer.read i j = (mkWRITER blankBuffer).buffer.read i j :=
  write_byte_in_row_spec (mkWRITER blankBuffer) 7 (by decide) (by decide) (by decide)

/-- C5: the attribute constructor packs the background color code into the
high nibble and the foreground color code into the low nibble of a single
byte, for every pair of colors; in particular green-on-black is `0x02` and
white-on-red is `0x4f`. -/
theorem make_attribute_packs_nibbles :
    (∀ fg bg : Color, (ColorCode.new fg bg).val = 16 * bg.toU8 + fg.toU8 ∧
      (ColorCode.new fg bg).val % 16 = fg.toU8 ∧
      (ColorCode.new fg bg).val / 16 = bg.toU8 ∧
      (ColorCode.new fg bg).val < 256) ∧
    ColorCode.new Color.Green Color.Black = ⟨0x02⟩ ∧
    ColorCode.new Color.White Color.Red = ⟨0x4f⟩ := by
  refine ⟨?_, by decide, by decide⟩
  decide

/-- C3: a non-newline byte written while the column is at or past the
width first triggers scroll-and-reset and then lands at column 0 of the
bottom row (leaving the rest of the bottom row blank and every other
visible row equal to the row previously below it); in particular, from
column 0, eighty printable bytes followed by one more printable byte cause
exactly one scroll: the eighty bytes end up one row above the bottom and
the extra byte at column 0 of the bottom row. -/
theorem write_byte_wrap_spec :
    (∀ (w : Writer) (b : Nat), w.buffer.WF → b ≠ 0x0a →
      BUFFER_WIDTH ≤ w.column_position →
      ∃ w', w.write_byte b = some w' ∧ w'.column_position = 1 ∧
        w'.buffer.read (BUFFER_HEIGHT - 1) 0 = some ⟨b, w.color_code⟩ ∧
        (∀ j, 1 ≤ j → j < BUFFER_WIDTH →
          w'.buffer.read (BUFFER_HEIGHT - 1) j = some ⟨0x20, w.color_code⟩) ∧
        (∀ i j, i + 1 < BUFFER_HEIGHT → j < BUFFER_WIDTH →
          w'.buffer.read i j = w.buffer.read (i + 1) j)) ∧
    (∀ (b0 : Buffer), b0.WF → ∀ (s : List Nat), (∀ x ∈ s, 0x20 ≤ x ∧ x ≤ 0x7e) →
      s.length = BUFFER_WIDTH → ∀ (b81 : Nat), 0x20 ≤ b81 → b81 ≤ 0x7e →
      ∃ w', (mkWRITER b0).write_string (s ++ [b81]) = some w' ∧
        w'.column_position = 1 ∧
        (∀ j, j < BUFFER_WIDTH → w'.buffer.read (BUFFER_HEIGHT - 2) j =
          some ⟨s.getD j 0, ColorCode.new Color.Green Color.Black⟩) ∧
        w'.buffer.read (BUFFER_HEIGHT - 1) 0 =
          some ⟨b81, ColorCode.new Color.Green Color.Black⟩) := by
  constructor
  · intro w b h hb hcol
    obtain ⟨w', hw', hwf', hcol', hcc', hread'⟩ := Writer.write_byte_spec_wrap h hb hcol
    refine ⟨w', hw', hcol', ?_, ?_, ?_⟩
    · rw [hread' (BUFFER_HEIGHT - 1) 0, if_pos ⟨rfl, rfl⟩]
    · intro j hj1 hj
      rw [hread' (BUFFER_HEIGHT - 1) j, if_neg (by omega), if_pos ⟨rfl, hj⟩]
    · intro i j hi hj
      rw [hread' i j,
        if_neg (by have h25 := height_eq; omega),
        if_neg (by have h25 := height_eq; omega), if_pos ⟨hi, hj⟩]
  · intro b0 hb0 s hs hslen b81 hb81lo hb81hi
    obtain ⟨w1, hw1, hwf1, hcc1, hcol1, hread1⟩ :=
      Writer.write_string_printable s (mkWRITER b0) hb0 hs
        (by show 0 + s.length ≤ BUFFER_WIDTH; omega)
    have hfull : BUFFER_WIDTH ≤ w1.column_position := by
      rw [hcol1]
      show BUFFER_WIDTH ≤ 0 + s.length
      omega
    obtain ⟨w', hw', hwf', hwcol', hwcc', hread'⟩ :=
      Writer.write_byte_spec_wrap hwf1 (by omega : b81 ≠ 0x0a) hfull
    refine ⟨w', ?_, hwcol', ?_, ?_⟩
    · rw [Writer.write_string_append, hw1]
      show w1.write_string [b81] = some w'
      rw [Writer.write_string_cons, if_pos (Or.inl ⟨hb81lo, hb81hi⟩), hw']
      rfl
    · intro j hj
      rw [hread' (BUFFER_HEIGHT - 2) j, if_neg (fun hh => absurd hh.1 (by decide)),
        if_neg (fun hh => absurd hh.1 (by decide)), if_pos ⟨by decide, hj⟩,
        show BUFFER_HEIGHT - 2 + 1 = BUFFER_HEIGHT - 1 from rfl,
        hread1 (BUFFER_HEIGHT - 1) j,
        if_pos ⟨rfl, by show (0 : Nat) ≤ j; omega, by show j < 0 + s.length; omega⟩]
      rfl
    · rw [hread' (BUFFER_HEIGHT - 1) 0, if_pos ⟨rfl, rfl⟩, hcc1]
      rfl

/-- C3 witness: part one applied to a full row (column 80) and the byte 7,
part two applied to eighty `A`s followed by one `B` on a blank grid. -/
theorem write_byte_wrap_spec_witness :
    (∃ w', ({ mkWRITER blankBuffer with column_position := 80 } : Writer).write_byte 7 =
        some w' ∧ w'.column_position = 1 ∧
      w'.buffer.read (BUFFER_HEIGHT - 1) 0 =
        some ⟨7, ({ mkWRITER blankBuffer with column_position := 80 } : Writer).color_code⟩ ∧
      (∀ j, 1 ≤ j → j < BUFFER_WIDTH → w'.buffer.read (BUFFER_HEIGHT - 1) j =
        some ⟨0x20, ({ mkWRITER blankBuffer with column_position := 80 } : Writer).color_code⟩) ∧
      (∀ i j, i + 1 < BUFFER_HEIGHT → j < BUFFER_WIDTH →
        w'.buffer.read i j =
          ({ mkWRITER blankBuffer with column_position := 80 } : Writer).buffer.read (i + 1) j)) ∧
    (∃ w', (mkWRITER blankBuffer).write_string (List.replicate 80 65 ++ [66]) = some w' ∧
      w'.column_position = 1 ∧
      (∀ j, j < BUFFER_WIDTH → w'.buffer.read (BUFFER_HEIGHT - 2) j =
        some ⟨(List.replicate 80 65).getD j 0, ColorCode.new Color.Green Color.Black⟩) ∧
      w'.buffer.read (BUFFER_HEIGHT - 1) 0 =
        some ⟨66, ColorCode.new Color.Green Color.Black⟩) :=
  ⟨write_byte_wrap_spec.1 { mkWRITER blankBuffer with column_position := 80 } 7
      (by decide) (by decide) (by decide),
    write_byte_wrap_spec.2 blankBuffer (by decide) (List.replicate 80 65)
      (by decide) (by decide) 66 (by decide) (by decide)⟩

/-- C4 (amended): `write_string` processes its bytes in order and is total
(no byte can fail): a printable ASCII byte (`0x20..=0x7e`) or newline is
forwarded to `write_byte` unchanged, every other byte is forwarded as the
fixed placeholder `0xfe`, so the cell produced by a non-printable,
non-newline byte always holds character `0xfe` (which differs from the
original byte except when the original byte is itself `0xfe`). -/
theorem write_string_sanitizes :
    (∀ (w : Writer) (s : List Nat), w.buffer.WF → (w.write_string s).isSome) ∧
    (∀ (w : Writer) (byte : Nat) (rest : List Nat),
      ((0x20 ≤ byte ∧ byte ≤ 0x7e) ∨ byte = 0x0a) →
      w.write_string (byte :: rest) =
        (w.write_byte byte).bind (fun w1 => w1.write_string rest)) ∧
    (∀ (w : Writer) (byte : Nat) (rest : List Nat),
      ¬((0x20 ≤ byte ∧ byte ≤ 0x7e) ∨ byte = 0x0a) →
      w.write_string (byte :: rest) =
        (w.write_byte 0xfe).bind (fun w1 => w1.write_string rest)) ∧
    (∀ (w : Writer) (byte : Nat), w.buffer.WF → ¬(0x20 ≤ byte ∧ byte ≤ 0x7e) →
      byte ≠ 0x0a →
      ∃ w', w.write_string [byte] = some w' ∧
        w'.buffer.read (BUFFER_HEIGHT - 1) (w'.column_position - 1) =
          some ⟨0xfe, w.color_code⟩) := by
  refine ⟨?_, ?_, ?_, ?_⟩
  · intro w s h
    obtain ⟨w', hw', _, _, _⟩ := Writer.write_string_total s w h
    rw [hw']
    rfl
  · intro w byte rest hp
    rw [Writer.write_string_cons, if_pos hp]
  · intro w byte rest hp
    rw [Writer.write_string_cons, if_neg hp]
  · intro w byte h hnp hnl
    have hstep : w.write_string [byte] =
        (w.write_byte 0xfe).bind (fun w1 => w1.write_string []) := by
      rw [Writer.write_string_cons, if_neg (fun hh => hh.elim hnp hnl)]
    by_cases hcol : w.column_position < BUFFER_WIDTH
    · obtain ⟨w', hw', _, hcol', hcc', hread'⟩ :=
        Writer.write_byte_spec_no_wrap h (by omega : (0xfe : Nat) ≠ 0x0a) hcol
      refine ⟨w', ?_, ?_⟩
      · rw [hstep, hw']
        rfl
      · rw [hcol', Nat.add_sub_cancel, hread' (BUFFER_HEIGHT - 1) w.column_position,
          if_pos ⟨rfl, rfl⟩]
    · obtain ⟨w', hw', _, hcol', hcc', hread'⟩ :=
        Writer.write_byte_spec_wrap h (by omega : (0xfe : Nat) ≠ 0x0a) (by omega)
      refine ⟨w', ?_, ?_⟩
      · rw [hstep, hw']
        rfl
      · rw [hcol', hread' (BUFFER_HEIGHT - 1) (1 - 1), if_pos ⟨rfl, rfl⟩]

/-- C4 counterexample: the byte `0xfe` is itself non-printable and not a
newline, yet the cell it produces holds exactly the original byte `0xfe`,
so "never the original byte" fails as universally stated. -/
theorem write_string_sanitizes_counterexample :
    ¬(0x20 ≤ (0xfe : Nat) ∧ (0xfe : Nat) ≤ 0x7e) ∧ (0xfe : Nat) ≠ 0x0a ∧
    ((mkWRITER blankBuffer).write_string [0xfe]).bind
      (fun w => w.buffer.read (BUFFER_HEIGHT - 1) 0) =
      some ⟨0xfe, ColorCode.new Color.Green Color.Black⟩ := by
  refine ⟨by decide, by decide, ?_⟩
  decide

/-- C4 witness: the amended theorem applied to the byte 3 (a control
character) and a one-byte string on the blank global writer. -/
theorem write_string_sanitizes_witness :
    ((mkWRITER blankBuffer).write_string [3, 65]).isSome ∧
    (mkWRITER blankBuffer).write_string [65, 66] =
      ((mkWRITER blankBuffer).write_byte 65).bind (fun w1 => w1.write_string [66]) ∧
    (mkWRITER blankBuffer).write_string [3, 65] =
      ((mkWRITER blankBuffer).write_byte 0xfe).bind (fun w1 => w1.write_string [65]) ∧
    (∃ w', (mkWRITER blankBuffer).write_string [3] = some w' ∧
      w'.buffer.read (BUFFER_HEIGHT - 1) (w'.column_position - 1) =
        some ⟨0xfe, (mkWRITER blankBuffer).color_code⟩) :=
  ⟨write_string_sanitizes.1 (mkWRITER blankBuffer) [3, 65] (by decide),
    write_string_sanitizes.2.1 (mkWRITER blankBuffer) 65 [66] (by decide),
    write_string_sanitizes.2.2.1 (mkWRITER blankBuffer) 3 [65] (by decide),
    write_string_sanitizes.2.2.2 (mkWRITER blankBuffer) 3 (by decide) (by decide)
      (by decide)⟩

/-- C6: a printable sequence shorter than the width, written with the
column at 0, lands verbatim in consecutive columns of the bottom row, and
the column afterwards equals the sequence length. -/
theorem write_string_consecutive : ∀ (w : Writer) (s : List Nat), w.buffer.WF →
    w.column_position = 0 → (∀ x ∈ s, 0x20 ≤ x ∧ x ≤ 0x7e) →
    s.length < BUFFER_WIDTH →
    ∃ w', w.write_string s = some w' ∧ w'.column_position = s.length ∧
      ∀ i, i < s.length →
        w'.buffer.read (BUFFER_HEIGHT - 1) i = some ⟨s.getD i 0, w.color_code⟩ := by
  intro w s h hc0 hs hlen
  obtain ⟨w', hw', hwf', hcc', hcol', hread'⟩ :=
    Writer.write_string_printable s w h hs (by omega)
  refine ⟨w', hw', by rw [hcol', hc0, Nat.zero_add], ?_⟩
  intro i hi
  rw [hread' (BUFFER_HEIGHT - 1) i, if_pos ⟨rfl, by omega, by omega⟩, hc0,
    Nat.sub_zero]

/-- C6 witness: the five printable bytes of `Hello` on the blank global
writer. -/
theorem write_string_consecutive_witness :
    ∃ w', (mkWRITER blankBuffer).write_string [72, 101, 108, 108, 111] = some w' ∧
      w'.column_position = ([72, 101, 108, 108, 111] : List Nat).length ∧
      ∀ i, i < ([72, 101, 108, 108, 111] : List Nat).length →
        w'.buffer.read (BUFFER_HEIGHT - 1) i =
          some ⟨([72, 101, 108, 108, 111] : List Nat).getD i 0,
            (mkWRITER blankBuffer).color_code⟩ :=
  write_string_consecutive (mkWRITER blankBuffer) [72, 101, 108, 108, 111]
    (by decide) (by decide) (by decide) (by decide)

/-- C7 (amended): from the initial writer (column 0) over any well-formed
grid, after any sequence of `write_byte` and `write_string` calls the
column position satisfies `0 ≤ column ≤ 80`; the bound is inclusive, since
filling a row exactly leaves the column equal to the width until the next
write wraps it. -/
theorem column_position_bounded : ∀ (b : Buffer), b.WF →
    ∀ (ops : List Op) (w' : Writer), (mkWRITER b).run ops = some w' →
      w'.column_position ≤ BUFFER_WIDTH := by
  intro b h ops w' hrun
  obtain ⟨w'', hh, _, _, hcol⟩ := Writer.run_total ops (mkWRITER b) h (Nat.zero_le _)
  rw [hrun] at hh
  cases Option.some.inj hh
  exact hcol

/-- C7 witness: the empty call sequence on the blank global writer. -/
theorem column_position_bounded_witness :
    (mkWRITER blankBuffer).column_position ≤ BUFFER_WIDTH :=
  column_position_bounded blankBuffer (by decide) [] (mkWRITER blankBuffer) rfl

/-- C7 counterexample: after writing exactly 80 printable bytes from
column 0, the reachable writer state has column position 80, which is not
strictly below the width — so `column < 80` fails for reachable states. -/
theorem column_position_bounded_counterexample :
    ((mkWRITER blankBuffer).run [Op.wstr (List.replicate 80 65)]).map
      Writer.column_position = some 80 ∧ ¬(80 < BUFFER_WIDTH) := by
  refine ⟨?_, by decide⟩
  decide

/-- C8: clearing a row twice in succession yields exactly the same writer
state (with the row all blank: space with the current attribute) as
clearing it once. -/
theorem clear_row_idempotent : ∀ (w : Writer) (row : Nat), w.buffer.WF →
    row < BUFFER_HEIGHT →
    ∃ w', w.clear_row row = some w' ∧ w'.clear_row row = some w' ∧
      ∀ j, j < BUFFER_WIDTH → w'.buffer.read row j = some ⟨0x20, w.color_code⟩ := by
  intro w row h hrow
  obtain ⟨w1, hw1, hwf1, hcol1, hcc1, hread1⟩ := Writer.clear_row_spec h hrow
  obtain ⟨w2, hw2, hwf2, hcol2, hcc2, hread2⟩ := Writer.clear_row_spec hwf1 hrow
  have hbeq : w2.buffer = w1.buffer := by
    apply Buffer.eq_of_read hwf2 hwf1
    intro i j
    rw [hread2 i j]
    by_cases hij : i = row ∧ j < BUFFER_WIDTH
    · rw [if_pos hij, hread1 i j, if_pos hij, hcc1]
    · rw [if_neg hij]
  have hw2eq : w2 = w1 := Writer.ext_fields hcol2 hcc2 hbeq
  refine ⟨w1, hw1, ?_, ?_⟩
  · rw [hw2, hw2eq]
  · intro j hj
    rw [hread1 row j, if_pos ⟨rfl, hj⟩]

/-- C8 witness: clearing row 3 of the blank global writer twice. -/
theorem clear_row_idempotent_witness :
    ∃ w', (mkWRITER blankBuffer).clear_row 3 = some w' ∧
      w'.clear_row 3 = some w' ∧
      ∀ j, j < BUFFER_WIDTH → w'.buffer.read 3 j =
        some ⟨0x20, (mkWRITER blankBuffer).color_code⟩ :=
  clear_row_idempotent (mkWRITER blankBuffer) 3 (by decide) (by decide)

/-- C9: every operation of the writer — `write_byte`, `write_string`,
`new_line` and `clear_row` — leaves the color code unchanged, for every
input and every starting state. -/
theorem color_code_fixed :
    (∀ (w w' : Writer) (b : Nat),
      w.write_byte b = some w' → w'.color_code = w.color_code) ∧
    (∀ (w w' : Writer) (s : List Nat),
      w.write_string s = some w' → w'.color_code = w.color_code) ∧
    (∀ (w w' : Writer), w.new_line = some w' → w'.color_code = w.color_code) ∧
    (∀ (w w' : Writer) (row : Nat),
      w.clear_row row = some w' → w'.color_code = w.color_code) :=
  ⟨fun _ _ _ h => Writer.write_byte_frame h,
    fun _ _ s h => Writer.write_string_frame s h,
    fun _ _ h => (Writer.new_line_frame h).1,
    fun _ _ _ h => (Writer.clear_row_frame h).1⟩

/-- C9 witness: all four operations applied to the blank global writer. -/
theorem color_code_fixed_witness :
    (∃ w', (mkWRITER blankBuffer).write_byte 65 = some w' ∧
      w'.color_code = (mkWRITER blankBuffer).color_code) ∧
    (∃ w', (mkWRITER blankBuffer).write_string [3] = some w' ∧
      w'.color_code = (mkWRITER blankBuffer).color_code) ∧
    (∃ w', (mkWRITER blankBuffer).new_line = some w' ∧
      w'.color_code = (mkWRITER blankBuffer).color_code) ∧
    (∃ w', (mkWRITER blankBuffer).clear_row 5 = some w' ∧
      w'.color_code = (mkWRITER blankBuffer).color_code) := by
  refine ⟨?_, ?_, ?_, ?_⟩
  · obtain ⟨w1, hw1, _, _, _⟩ :=
      @Writer.write_byte_total (mkWRITER blankBuffer) (by decide) 65
    exact ⟨w1, hw1, color_code_fixed.1 _ _ 65 hw1⟩
  · obtain ⟨w1, hw1, _, _, _⟩ :=
      Writer.write_string_total [3] (mkWRITER blankBuffer) (by decide)
    exact ⟨w1, hw1, color_code_fixed.2.1 _ _ [3] hw1⟩
  · obtain ⟨w1, hw1, _, _, _, _⟩ :=
      @Writer.new_line_spec (mkWRITER blankBuffer) (by decide)
    exact ⟨w1, hw1, color_code_fixed.2.2.1 _ _ hw1⟩
  · obtain ⟨w1, hw1, _, _, _, _⟩ :=
      @Writer.clear_row_spec (mkWRITER blankBuffer) (by decide) 5 (by decide)
    exact ⟨w1, hw1, color_code_fixed.2.2.2 _ _ 5 hw1⟩

/-- C10: from a well-formed grid, every grid access stays in bounds: any
sequence of public calls from the initial writer succeeds (`none`, the
out-of-bounds branch of the embedding, is unreachable), and `write_byte`,
`new_line` and `clear_row (height-1)` individually always succeed on
well-formed states. -/
theorem accesses_in_bounds :
    (∀ (b : Buffer), b.WF → ∀ (ops : List Op), ((mkWRITER b).run ops).isSome) ∧
    (∀ (w : Writer), w.buffer.WF → ∀ (byte : Nat), (w.write_byte byte).isSome) ∧
    (∀ (w : Writer), w.buffer.WF → (w.new_line).isSome) ∧
    (∀ (w : Writer), w.buffer.WF → (w.clear_row (BUFFER_HEIGHT - 1)).isSome) := by
  refine ⟨?_, ?_, ?_, ?_⟩
  · intro b h ops
    obtain ⟨w', hw', _, _, _⟩ := Writer.run_total ops (mkWRITER b) h (Nat.zero_le _)
    rw [hw']
    rfl
  · intro w h byte
    obtain ⟨w', hw', _, _, _⟩ := Writer.write_byte_total h byte
    rw [hw']
    rfl
  · intro w h
    obtain ⟨w', hw', _, _, _, _⟩ := Writer.new_line_spec h
    rw [hw']
    rfl
  · intro w h
    obtain ⟨w', hw', _, _, _, _⟩ :=
      @Writer.clear_row_spec w h (BUFFER_HEIGHT - 1) (by decide)
    rw [hw']
    rfl

/-- C10 witness: concrete call sequences on the blank global writer. -/
theorem accesses_in_bounds_witness :
    ((mkWRITER blankBuffer).run [Op.wbyte 65, Op.wstr [66, 67]]).isSome ∧
    ((mkWRITER blankBuffer).write_byte 0).isSome ∧
    ((mkWRITER blankBuffer).new_line).isSome ∧
    ((mkWRITER blankBuffer).clear_row (BUFFER_HEIGHT - 1)).isSome :=
  ⟨accesses_in_bounds.1 blankBuffer (by decide) [Op.wbyte 65, Op.wstr [66, 67]],
    accesses_in_bounds.2.1 (mkWRITER blankBuffer) (by decide) 0,
    accesses_in_bounds.2.2.1 (mkWRITER blankBuffer) (by decide),
    accesses_in_bounds.2.2.2 (mkWRITER blankBuffer) (by decide)⟩

end VGA
